import Mathlib

/-!
Verification of the role-based prompt orchestration core of the
`llm-chat-cli` repository.  The definitions below are a shallow embedding
of the Python source (principally `src/llmclient.py` and
`src/gemini_chat.py`): strings are modelled as `List Char`, the small
regular expressions of the source are modelled by the deterministic
matching procedures they denote, mutation of the session object is
modelled by explicit state passing, and code that raises is modelled by
`Option`/`Except`-valued results that also return the (possibly partially
updated) state.
-/

/-- Strings are modelled as lists of characters. -/
abbrev Str : Type := List Char

/-- Convenience conversion from a Lean string literal. -/
def str (s : String) : Str := s.data

/-- The ASCII whitespace class matched by the regex class `\s` and stripped
by `str.strip()` (space, tab, newline, carriage return, form feed,
vertical tab). -/
def isWs (c : Char) : Bool :=
  c = ' ' || c = '\t' || c = '\n' || c = '\r' || c = '\x0c' || c = '\x0b'

/-- Drop leading whitespace (the deterministic reading of a greedy `\s*`
that is followed by a non-whitespace literal). -/
def dropWs (s : Str) : Str := s.dropWhile isWs

/-- Embeds Python `str.strip()`: remove leading and trailing whitespace. -/
def pyStrip (s : Str) : Str := ((dropWs s).reverse.dropWhile isWs).reverse

/-- ASCII lower-casing of one character (for `re.I` matching). -/
def lowerC (c : Char) : Char :=
  if 'A' ≤ c ∧ c ≤ 'Z' then Char.ofNat (c.toNat + 32) else c

/-- `isPre p s` holds when `p` is a prefix of `s` (case-sensitive). -/
def isPre : Str → Str → Bool
  | [], _ => true
  | _ :: _, [] => false
  | a :: as, b :: bs => a == b && isPre as bs

/-- `isPreCI p s` holds when `p` is a prefix of `s` up to ASCII case. -/
def isPreCI : Str → Str → Bool
  | [], _ => true
  | _ :: _, [] => false
  | a :: as, b :: bs => lowerC a == lowerC b && isPreCI as bs

/-- Embeds the Python substring test `p in s`. -/
def strContains (p : Str) : Str → Bool
  | [] => p.isEmpty
  | c :: rest => isPre p (c :: rest) || strContains p rest

/-- The bare placeholder token `__INPUT__`. -/
def BTOK : Str := str "__INPUT__"

/-- The brace-wrapped placeholder token (an opening brace, the bare token,
a closing brace). -/
def WTOK : Str := str "\x7b__INPUT__\x7d"

/-- The characters occurring in the bare placeholder token. -/
def BCHARS : Str := str "_INPUT"

/-- Case-sensitive match of `###`, then `\s*`, then `word`, at the head of
`s`; on success returns the remainder after `word`.  This is the
deterministic denotation of the marker pieces of the (case-sensitive,
`re.S`) regex in `RoleConfig.detect_role_kind`. -/
def csMarkRem (word : Str) (s : Str) : Option Str :=
  match s with
  | '#' :: '#' :: '#' :: rest =>
      let r := dropWs rest
      if isPre word r then some (r.drop word.length) else none
  | _ => none

/-- Leftmost occurrence of `### \s* word` in `s`; returns the remainder
after the match, as `re.search` does. -/
def csFind (word : Str) : Str → Option Str
  | [] => none
  | c :: rest =>
      match csMarkRem word (c :: rest) with
      | some r => some r
      | none => csFind word rest

/-- Embeds `re.search(r'###\s*INPUT:.*###\s*OUTPUT:', template, re.S)`
viewed as a Boolean test: an input marker occurs, and an output marker
occurs in the text after it (`.*` with `re.S` spans newlines). -/
def scaffoldPat (t : Str) : Bool :=
  match csFind (str "INPUT:") t with
  | some rest => (csFind (str "OUTPUT:") rest).isSome
  | none => false

/-- Embeds `RoleConfig.detect_role_kind` (src/llmclient.py): fewshot when
the input/output scaffold regex matches, else embedded when the template
contains the placeholder (bare or brace-wrapped spelling), else system. -/
def detect_role_kind (template : Str) : Str :=
  if scaffoldPat template = true then str "fewshot"
  else if strContains BTOK template || strContains WTOK template then str "embedded"
  else str "system"

/-- Fuelled work-horse for `replaceAll`; the fuel is an upper bound on the
length of the text, so the structural recursion below computes the same
function as the length-decreasing loop of Python `str.replace`. -/
def replaceAllF (p r : Str) : Nat → Str → Str
  | _, [] => []
  | 0, s => s
  | Nat.succ n, c :: rest =>
      if p ≠ [] ∧ isPre p (c :: rest) = true then
        r ++ replaceAllF p r n ((c :: rest).drop p.length)
      else
        c :: replaceAllF p r n rest

/-- Embeds Python `s.replace(p, r)` for a non-empty pattern `p`: replace
the leftmost occurrence, continue after the inserted replacement. -/
def replaceAll (p r s : Str) : Str := replaceAllF p r s.length s

/-- Embeds `LLMClient.fill_embedded` (src/llmclient.py): first replace
every occurrence of the brace-wrapped spelling, then, in that result,
every occurrence of the bare spelling. -/
def fill_embedded (template user_input : Str) : Str :=
  replaceAll BTOK user_input (replaceAll WTOK user_input template)

/-- Fuelled work-horse for `fillSimul`. -/
def fillSimulF (i : Str) : Nat → Str → Str
  | _, [] => []
  | 0, s => s
  | Nat.succ n, c :: rest =>
      if isPre WTOK (c :: rest) = true then
        i ++ fillSimulF i n ((c :: rest).drop WTOK.length)
      else if isPre BTOK (c :: rest) = true then
        i ++ fillSimulF i n ((c :: rest).drop BTOK.length)
      else c :: fillSimulF i n rest

/-- Modelled from the spec wording of `fillPlaceholder`: a single
left-to-right pass over the template that replaces every occurrence of the
placeholder, in its brace-wrapped or bare spelling, by the input.  This is
the comparison point for the claim about `fill_embedded`. -/
def fillSimul (i s : Str) : Str := fillSimulF i s.length s

/-- A chat message: a role tag and a content string. -/
structure Msg where
  role : Str
  content : Str
deriving DecidableEq

/-- Case-insensitive match at the head of `s` of the alternation
`###\s*INPUT:|###\s*OUTPUT:` (the `SCAFFOLD_MARK` regex, compiled with
`re.I`). -/
def ciMarkAt (s : Str) : Bool :=
  match s with
  | '#' :: '#' :: '#' :: rest =>
      let r := dropWs rest
      isPreCI (str "INPUT:") r || isPreCI (str "OUTPUT:") r
  | _ => false

/-- Embeds `SCAFFOLD_MARK.search(content)`: some position of the content
matches one of the two scaffold markers, case-insensitively. -/
def hasScaffoldMark : Str → Bool
  | [] => false
  | c :: rest => ciMarkAt (c :: rest) || hasScaffoldMark rest

/-- Case-sensitive match of `###\s*INPUT:\n` at the head of `s`; on
success returns the remainder after the newline. -/
def inMarkRem (s : Str) : Option Str :=
  match s with
  | '#' :: '#' :: '#' :: rest =>
      let r := dropWs rest
      if isPre (str "INPUT:\n") r then some (r.drop 7) else none
  | _ => none

/-- Case-sensitive match of `\n###\s*OUTPUT:` at the head of `s`. -/
def outMarkAt (s : Str) : Bool :=
  match s with
  | '\n' :: '#' :: '#' :: '#' :: rest => isPre (str "OUTPUT:") (dropWs rest)
  | _ => false

/-- Splits `s` before its rightmost position matching `\n###\s*OUTPUT:`,
returning the text before that position.  This is where the greedy `(.*)`
of the extraction regex ends. -/
def lastOutSplit : Str → Option Str
  | [] => none
  | c :: rest =>
      match lastOutSplit rest with
      | some g => some (c :: g)
      | none => if outMarkAt (c :: rest) then some [] else none

/-- Embeds `re.search(r'###\s*INPUT:\n(.*)\n###\s*OUTPUT:', content, re.S)`
returning `group(1)`: leftmost input marker, then the greedy group up to
the rightmost output marker in the remainder; if a trial position has an
input marker but no later output marker, the search moves on (and, the
markers being non-overlapping, will find no later full match either). -/
def scaffoldExtract : Str → Option Str
  | [] => none
  | c :: rest =>
      match inMarkRem (c :: rest) with
      | some r =>
          (match lastOutSplit r with
           | some g => some g
           | none => scaffoldExtract rest)
      | none => scaffoldExtract rest

/-- Embeds `LLMClient.neutralize_history` (src/llmclient.py): drop system
messages; a user message containing a scaffold marker is replaced by the
stripped text between the full input/output pattern when that pattern
matches, and dropped otherwise; all other messages pass through. -/
def neutralize_history : List Msg → List Msg
  | [] => []
  | m :: rest =>
      if m.role = str "system" then neutralize_history rest
      else if m.role = str "user" ∧ hasScaffoldMark m.content = true then
        match scaffoldExtract m.content with
        | some g => ⟨str "user", pyStrip g⟩ :: neutralize_history rest
        | none => neutralize_history rest
      else m :: neutralize_history rest

/-- The per-message neutralization policy as the claim about
`neutralize_history` words it: system messages are removed; a scaffolded
user message is replaced by the trimmed inner text when the full pattern
matches and dropped otherwise; every other message is kept unchanged. -/
def neutralizeMsgSpec (m : Msg) : Option Msg :=
  if m.role = str "system" then none
  else if m.role = str "user" ∧ hasScaffoldMark m.content = true then
    match scaffoldExtract m.content with
    | some g => some ⟨str "user", pyStrip g⟩
    | none => none
  else some m

/-- Embeds the `RoleConfig` dataclass (src/llmclient.py).  The optional
numeric fields are rationals; nothing in the verified code computes with
them, they are only selected and forwarded. -/
structure RoleConfig where
  name : Str
  template : Str := []
  kind : Option Str := none
  model : Option Str := none
  temperature : Option ℚ := none
  top_p : Option ℚ := none
  description : Option Str := none
deriving DecidableEq

/-- Embeds `role.kind or role.detect_role_kind(role.template)` (Python
truthiness: `None` and the empty string both fall through to detection). -/
def resolvedKind (r : RoleConfig) : Str :=
  match r.kind with
  | some k => if k = [] then detect_role_kind r.template else k
  | none => detect_role_kind r.template

/-- Embeds `LLMClient.build_messages_for_role` (src/llmclient.py): the
stored history is always neutralized; with no role the raw user turn is
appended; a system-kind role prepends its template as a system message;
an embedded- or fewshot-kind role sends the placeholder-filled template
as the user turn. -/
def build_messages_for_role (history : List Msg) (user_input : Str)
    (role : Option RoleConfig) : List Msg :=
  let hist := neutralize_history history
  match role with
  | none => hist ++ [⟨str "user", user_input⟩]
  | some r =>
      if resolvedKind r = str "system" then
        ⟨str "system", r.template⟩ :: (hist ++ [⟨str "user", user_input⟩])
      else
        hist ++ [⟨str "user", fill_embedded r.template user_input⟩]

/-- Effective temperature: the role's value when set, else the caller's,
else `1.0`. -/
def eff_temperature (role : Option RoleConfig) (temperature : Option ℚ) : ℚ :=
  match role with
  | some r =>
      match r.temperature with
      | some rt => rt
      | none => temperature.getD 1
  | none => temperature.getD 1

/-- Effective top-p: the role's value when set, else the caller's (the
source computes this and then does not forward it). -/
def eff_top_p (role : Option RoleConfig) (top_p : Option ℚ) : Option ℚ :=
  match role with
  | some r =>
      match r.top_p with
      | some rp => some rp
      | none => top_p
  | none => top_p

/-- The concrete provider-client class selected by `load_model`'s dispatch
on the provider key. -/
inductive ClientKind where
  | xai
  | gemini
  | openai
  | openaiCompatible
deriving DecidableEq

/-- One entry of the `clients` list of the configuration.  The source
also carries `name` and per-model `max_input_tokens`, which the verified
operations never read; models are identified by their names. -/
structure ProviderCfg where
  ptype : Str
  api_key : Str
  models : List Str
deriving DecidableEq

/-- The mutable session state of `LLMClient` that the verified operations
touch. -/
structure ClientState where
  clients : List ProviderCfg
  default_model : Option Str
  current_model : Option Str
  current_client : Option ClientKind
  active_role : Option RoleConfig
  history : List Msg
deriving DecidableEq

/-- The process environment, for `os.getenv`. -/
def Env : Type := Str → Option Str

/-- Embeds the api-key indirection step of `load_model`: a `$`-prefixed
key is looked up in the environment, keeping the literal `$NAME` string
when the variable is unset. -/
def resolve_api_key (env : Env) (k : Str) : Str :=
  match k with
  | '$' :: rest => (env rest).getD ('$' :: rest)
  | _ => k

/-- Embeds lookup in `self.clients`, the dict built by
`{client['type']: client for client in ...}` — on duplicate types the
last entry wins. -/
def clientsDict (cs : List ProviderCfg) (k : Str) : Option ProviderCfg :=
  cs.reverse.find? (fun c => c.ptype == k)

/-- Embeds Python `s.split(':')`. -/
def splitOnColon : Str → List Str
  | [] => [[]]
  | c :: rest =>
      if c = ':' then [] :: splitOnColon rest
      else
        match splitOnColon rest with
        | g :: gs => (c :: g) :: gs
        | [] => [[c]]

/-- Embeds the identifier-splitting step of `load_model`
(src/llmclient.py, lines 93–98): `provider, model_name, *version =
model.split(':')`, then `model_name += ':' + version[0]` when a version
list is present; an identifier without a colon, an empty provider or an
empty model name are rejected. -/
def parse_model_id (model : Str) : Option (Str × Str) :=
  if model.contains ':' then
    match splitOnColon model with
    | p :: mn :: rest =>
        let mn2 := match rest with
          | [] => mn
          | v :: _ => mn ++ ':' :: v
        if p = [] ∨ mn2 = [] then none else some (p, mn2)
    | _ => none
  else none

/-- Embeds the provider-key dispatch at the end of `load_model`. -/
def providerKind (p : Str) : Option ClientKind :=
  if p = str "grok" then some ClientKind.xai
  else if p = str "gemini" then some ClientKind.gemini
  else if p = str "openai" then some ClientKind.openai
  else if p = str "openai-compatible" then some ClientKind.openaiCompatible
  else none

/-- Embeds `a or b` on optional strings, with Python truthiness (both
`None` and `''` fall through). -/
def pyOrStr (a b : Option Str) : Option Str :=
  match a with
  | some s => if s = [] then b else some s
  | none => b

/-- Embeds `LLMClient.load_model` (src/llmclient.py) as a state
transition; the second component is the raised error message, `none` on
success.  Note that the api-key resolution mutates the stored client
configuration in place even when a later step of the same call fails. -/
def load_model (env : Env) (st : ClientState) (model? : Option Str) :
    ClientState × Option Str :=
  match pyOrStr model? st.default_model with
  | none => (st, some (str "No model specified and default model not present"))
  | some model =>
      if model = [] then
        (st, some (str "No model specified and default model not present"))
      else
        match parse_model_id model with
        | none => (st, some (str "Invalid format. Expecting provider:model"))
        | some (provider, model_name) =>
            match clientsDict st.clients provider with
            | none => (st, some (str "Provider not found in config file"))
            | some client_config =>
                let new_key := resolve_api_key env client_config.api_key
                let st1 := { st with
                  clients := st.clients.map
                    (fun c => if c.ptype = provider then { c with api_key := new_key } else c) }
                if model_name ∈ client_config.models then
                  match providerKind provider with
                  | some k =>
                      ({ st1 with current_client := some k, current_model := some model }, none)
                  | none => (st1, some (str "Provider type not supported"))
                else (st1, some (str "Model not found for provider"))

/-- Embeds `LLMClient.set_role` (src/llmclient.py): the kind is resolved
and the role becomes active first; only then, when the role names a model
other than the current one, is that model loaded. -/
def set_role (env : Env) (st : ClientState) (role : RoleConfig) :
    ClientState × Option Str :=
  let role' := { role with kind := some (resolvedKind role) }
  let st1 := { st with active_role := some role' }
  match role'.model with
  | some m =>
      if m ≠ [] ∧ some m ≠ st1.current_model then load_model env st1 (some m)
      else (st1, none)
  | none => (st1, none)

/-- The provider call made by the currently loaded client: given the
outbound messages and the effective temperature it returns the assistant
text or raises. -/
def ProviderFun : Type := List Msg → ℚ → Except Str Str

/-- Embeds `LLMClient.send_with_role` (src/llmclient.py): messages are
built from the stored history and active role, the provider is called,
and only after a successful return are the raw user turn and the
assistant reply appended to the stored history. -/
def send_with_role (provider : ProviderFun) (st : ClientState)
    (user_input : Str) (temperature top_p : Option ℚ) :
    ClientState × Except Str Str :=
  match st.current_client with
  | none => (st, Except.error (str "No model loaded."))
  | some _ =>
      let role := st.active_role
      let messages := build_messages_for_role st.history user_input role
      let t := eff_temperature role temperature
      let _ := eff_top_p role top_p
      match provider messages t with
      | Except.error e => (st, Except.error e)
      | Except.ok response =>
          ({ st with history :=
              st.history ++ [⟨str "user", user_input⟩, ⟨str "assistant", response⟩] },
           Except.ok response)

/-- One entry of the Gemini `safetySettings` list. -/
structure SafetySetting where
  category : Str
  threshold : Str
deriving DecidableEq

/-- The outbound Gemini request body built by `GeminiChat.send_message`
(src/gemini_chat.py); each `contents` entry is its list of part texts. -/
structure GeminiPayload where
  contents : List (List Str)
  temperature : ℚ
  safetySettings : List SafetySetting
deriving DecidableEq

/-- Embeds the payload construction of `GeminiChat.send_message`
(src/gemini_chat.py): one `contents` entry per message whose role is
`user` or `system`, the temperature under `generationConfig`, and the
fixed four safety-setting entries. -/
def gemini_send_payload (messages : List Msg) (temperature : ℚ) : GeminiPayload :=
  { contents :=
      (messages.filter (fun m => m.role == str "user" || m.role == str "system")).map
        (fun m => [m.content]),
    temperature := temperature,
    safetySettings :=
      [⟨str "HARM_CATEGORY_HARASSMENT", str "BLOCK_NONE"⟩,
       ⟨str "HARM_CATEGORY_HATE_SPEECH", str "BLOCK_NONE"⟩,
       ⟨str "HARM_CATEGORY_SEXUALLY_EXPLICIT", str "BLOCK_NONE"⟩,
       ⟨str "HARM_CATEGORY_DANGEROUS_CONTENT", str "BLOCK_NONE"⟩] }

/-- A sample environment (no variables set). -/
def exEnv : Env := fun _ => none

/-- A sample session state used to exercise the operations on concrete
inputs. -/
def exSt : ClientState :=
  { clients := [⟨str "openai", str "k", [str "gpt-4o"]⟩],
    default_model := some (str "openai:gpt-4o"),
    current_model := some (str "openai:gpt-4o"),
    current_client := some ClientKind.openai,
    active_role := none,
    history := [⟨str "user", str "u1"⟩, ⟨str "assistant", str "a1"⟩] }

/-- A role naming a model whose provider is not configured. -/
def exRoleBad : RoleConfig :=
  { name := str "r", template := str "t", model := some (str "nope:x") }

/-- A role whose template embeds the placeholder. -/
def exRoleEmb : RoleConfig :=
  { name := str "c", template := str "say __INPUT__ now" }

/-- The sample state with the embedded-template role active. -/
def exStRole : ClientState := { exSt with active_role := some exRoleEmb }

/-- A provider call that succeeds. -/
def exProviderOk : ProviderFun := fun _ _ => Except.ok (str "yo")

/-- A provider call that raises. -/
def exProviderErr : ProviderFun := fun _ _ => Except.error (str "boom")

/-- A sample stored history with a system turn, a scaffolded user turn, an
assistant turn mentioning a marker, and a plain user turn. -/
def exHistory : List Msg :=
  [⟨str "system", str "You are my assistant."⟩,
   ⟨str "user", str "### INPUT:\nhello\n### OUTPUT:"⟩,
   ⟨str "assistant", str "a ### OUTPUT: ok"⟩,
   ⟨str "user", str "plain"⟩]

/-! ## Basic lemmas about the string primitives -/

theorem isPre_append_self (p x : Str) : isPre p (p ++ x) = true := by
  induction p with
  | nil => rfl
  | cons a as ih => simp [isPre, ih]

theorem isPre_append_of {p s : Str} (h : isPre p s = true) :
    p ++ s.drop p.length = s := by
  induction p generalizing s with
  | nil => simp
  | cons a as ih =>
    cases s with
    | nil => simp [isPre] at h
    | cons b bs =>
      simp only [isPre, Bool.and_eq_true, beq_iff_eq] at h
      obtain ⟨rfl, h2⟩ := h
      simpa using ih h2

theorem isPre_weaken {p q s : Str} (h : isPre (p ++ q) s = true) :
    isPre p s = true := by
  induction p generalizing s with
  | nil => rfl
  | cons a as ih =>
    cases s with
    | nil => simp [isPre] at h
    | cons b bs =>
      simp only [List.cons_append, isPre, Bool.and_eq_true] at h ⊢
      exact ⟨h.1, ih h.2⟩

theorem isPre_cons_iff {a b : Char} {as bs : Str} :
    isPre (a :: as) (b :: bs) = true ↔ a = b ∧ isPre as bs = true := by
  simp [isPre]

theorem strContains_of_isPre {p s : Str} (h : isPre p s = true) :
    strContains p s = true := by
  cases s with
  | nil =>
    cases p with
    | nil => rfl
    | cons a as => simp [isPre] at h
  | cons c rest => simp [strContains, h]

theorem replaceAllF_nil (p r : Str) (n : Nat) : replaceAllF p r n [] = [] := by
  cases n <;> rfl

theorem replaceAllF_fuel (p r : Str) :
    ∀ n m s, s.length ≤ n → s.length ≤ m →
      replaceAllF p r n s = replaceAllF p r m s := by
  intro n
  induction n with
  | zero =>
    intro m s hs _
    have : s = [] := List.eq_nil_of_length_eq_zero (Nat.le_zero.mp hs)
    subst this
    rw [replaceAllF_nil, replaceAllF_nil]
  | succ n ih =>
    intro m s hs hm
    cases s with
    | nil => rw [replaceAllF_nil, replaceAllF_nil]
    | cons c rest =>
      cases m with
      | zero => simp at hm
      | succ m' =>
        simp only [replaceAllF]
        by_cases hC : p ≠ [] ∧ isPre p (c :: rest) = true
        · rw [if_pos hC, if_pos hC]
          congr 1
          apply ih
          · have hp : 0 < p.length := List.length_pos.mpr hC.1
            simp only [List.length_drop, List.length_cons] at *
            omega
          · have hp : 0 < p.length := List.length_pos.mpr hC.1
            simp only [List.length_drop, List.length_cons] at *
            omega
        · rw [if_neg hC, if_neg hC]
          congr 1
          apply ih
          · simp only [List.length_cons] at hs; omega
          · simp only [List.length_cons] at hm; omega

theorem replaceAll_nil (p r : Str) : replaceAll p r [] = [] := rfl

theorem replaceAll_cons (p r : Str) (c : Char) (rest : Str) :
    replaceAll p r (c :: rest) =
      if p ≠ [] ∧ isPre p (c :: rest) = true then
        r ++ replaceAll p r ((c :: rest).drop p.length)
      else c :: replaceAll p r rest := by
  show replaceAllF p r (rest.length + 1) (c :: rest) = _
  simp only [replaceAllF]
  by_cases hC : p ≠ [] ∧ isPre p (c :: rest) = true
  · rw [if_pos hC, if_pos hC]
    congr 1
    apply replaceAllF_fuel
    · have hp : 0 < p.length := List.length_pos.mpr hC.1
      simp only [List.length_drop, List.length_cons]
      omega
    · exact le_refl _
  · rw [if_neg hC, if_neg hC]
    rfl

theorem fillSimulF_nil (i : Str) (n : Nat) : fillSimulF i n [] = [] := by
  cases n <;> rfl

theorem fillSimulF_fuel (i : Str) :
    ∀ n m s, s.length ≤ n → s.length ≤ m →
      fillSimulF i n s = fillSimulF i m s := by
  intro n
  induction n with
  | zero =>
    intro m s hs _
    have : s = [] := List.eq_nil_of_length_eq_zero (Nat.le_zero.mp hs)
    subst this
    rw [fillSimulF_nil, fillSimulF_nil]
  | succ n ih =>
    intro m s hs hm
    cases s with
    | nil => rw [fillSimulF_nil, fillSimulF_nil]
    | cons c rest =>
      cases m with
      | zero => simp at hm
      | succ m' =>
        have hW : WTOK.length = 11 := rfl
        have hB : BTOK.length = 9 := rfl
        simp only [fillSimulF]
        by_cases h1 : isPre WTOK (c :: rest) = true
        · rw [if_pos h1, if_pos h1]
          congr 1
          apply ih <;>
            · simp only [List.length_drop, List.length_cons, hW] at *
              omega
        · rw [if_neg h1, if_neg h1]
          by_cases h2 : isPre BTOK (c :: rest) = true
          · rw [if_pos h2, if_pos h2]
            congr 1
            apply ih <;>
              · simp only [List.length_drop, List.length_cons, hB] at *
                omega
          · rw [if_neg h2, if_neg h2]
            congr 1
            apply ih
            · simp only [List.length_cons] at hs; omega
            · simp only [List.length_cons] at hm; omega

theorem fillSimul_cons (i : Str) (c : Char) (rest : Str) :
    fillSimul i (c :: rest) =
      if isPre WTOK (c :: rest) = true then
        i ++ fillSimul i ((c :: rest).drop WTOK.length)
      else if isPre BTOK (c :: rest) = true then
        i ++ fillSimul i ((c :: rest).drop BTOK.length)
      else c :: fillSimul i rest := by
  show fillSimulF i (rest.length + 1) (c :: rest) = _
  simp only [fillSimulF]
  by_cases h1 : isPre WTOK (c :: rest) = true
  · rw [if_pos h1, if_pos h1]
    congr 1
    apply fillSimulF_fuel
    · have hW : WTOK.length = 11 := rfl
      simp only [List.length_drop, List.length_cons, hW]
      omega
    · exact le_refl _
  · rw [if_neg h1, if_neg h1]
    by_cases h2 : isPre BTOK (c :: rest) = true
    · rw [if_pos h2, if_pos h2]
      congr 1
      apply fillSimulF_fuel
      · have hB : BTOK.length = 9 := rfl
        simp only [List.length_drop, List.length_cons, hB]
        omega
      · exact le_refl _
    · rw [if_neg h2, if_neg h2]
      rfl

/-! ## Lemmas about replacement -/

theorem strContains_false_elim {p : Str} {c : Char} {rest : Str}
    (h : strContains p (c :: rest) = false) :
    isPre p (c :: rest) = false ∧ strContains p rest = false := by
  simpa [strContains, Bool.or_eq_false_iff] using h

theorem noOccur_replaceAllF (p r : Str) :
    ∀ n s, s.length ≤ n → strContains p s = false → replaceAllF p r n s = s := by
  intro n
  induction n with
  | zero =>
    intro s hs _
    have : s = [] := List.eq_nil_of_length_eq_zero (Nat.le_zero.mp hs)
    subst this
    exact replaceAllF_nil p r 0
  | succ n ih =>
    intro s hs hocc
    cases s with
    | nil => exact replaceAllF_nil p r _
    | cons c rest =>
      obtain ⟨h1, h2⟩ := strContains_false_elim hocc
      simp only [replaceAllF]
      rw [if_neg (by simp [h1])]
      rw [ih rest (by simp only [List.length_cons] at hs; omega) h2]

theorem noOccur_replaceAll {p s : Str} (r : Str) (h : strContains p s = false) :
    replaceAll p r s = s :=
  noOccur_replaceAllF p r s.length s (le_refl _) h

theorem containsW_containsB :
    ∀ s : Str, strContains WTOK s = true → strContains BTOK s = true := by
  intro s
  induction s with
  | nil => intro h; simpa [strContains, List.isEmpty] using h
  | cons c rest ih =>
    intro h
    rcases (by simpa [strContains, Bool.or_eq_true] using h :
        isPre WTOK (c :: rest) = true ∨ strContains WTOK rest = true) with h1 | h2
    · have hw : WTOK = '\x7b' :: (BTOK ++ ['\x7d']) := by decide
      rw [hw] at h1
      cases rest with
      | nil => simp [isPre] at h1
      | cons b bs =>
        obtain ⟨-, h1b⟩ := isPre_cons_iff.mp h1
        have hbs : isPre BTOK (b :: bs) = true := isPre_weaken h1b
        have hsc : strContains BTOK (b :: bs) = true := strContains_of_isPre hbs
        show (isPre BTOK (c :: b :: bs) || strContains BTOK (b :: bs)) = true
        rw [hsc, Bool.or_true]
    · show (isPre BTOK (c :: rest) || strContains BTOK rest) = true
      rw [ih h2, Bool.or_true]

theorem replaceAll_walk (p r x : Str) :
    ∀ a : Str, (∀ c ∈ a, p.head? ≠ some c) →
      replaceAll p r (a ++ x) = a ++ replaceAll p r x := by
  intro a
  induction a with
  | nil => simp
  | cons c a' ih =>
    intro H
    have hc := H c (List.mem_cons_self c a')
    rw [List.cons_append, replaceAll_cons]
    have hcond : ¬ (p ≠ [] ∧ isPre p (c :: (a' ++ x)) = true) := by
      rintro ⟨hne, hpre⟩
      cases p with
      | nil => exact hne rfl
      | cons q qs =>
        simp only [isPre, Bool.and_eq_true, beq_iff_eq] at hpre
        exact hc (by simp [List.head?, hpre.1])
    rw [if_neg hcond, ih (fun d hd => H d (List.mem_cons_of_mem c hd))]
    rw [List.cons_append]

theorem replaceAll_head_match {p : Str} (r y : Str) (hne : p ≠ []) :
    replaceAll p r (p ++ y) = r ++ replaceAll p r y := by
  cases p with
  | nil => exact absurd rfl hne
  | cons a as =>
    rw [List.cons_append, replaceAll_cons]
    rw [if_pos ⟨hne, by rw [← List.cons_append]; exact isPre_append_self (a :: as) y⟩]
    congr 1
    have : ((a :: as) ++ y).drop (a :: as).length = y := List.drop_left (a :: as) y
    rw [← List.cons_append, this]

theorem isPre_reflect {i : Str} (hne : i ≠ []) (hchars : ∀ c ∈ i, c ∉ BCHARS) :
    ∀ n s, s.length ≤ n → ∀ p, (∀ c ∈ p, c ∈ BCHARS) →
      isPre p (replaceAll WTOK i s) = true → isPre p s = true := by
  intro n
  induction n with
  | zero =>
    intro s hs p _ hp
    have : s = [] := List.eq_nil_of_length_eq_zero (Nat.le_zero.mp hs)
    subst this
    rw [replaceAll_nil] at hp
    cases p with
    | nil => rfl
    | cons a as => simp [isPre] at hp
  | succ n ih =>
    intro s hs p hsub hp
    cases s with
    | nil =>
      rw [replaceAll_nil] at hp
      cases p with
      | nil => rfl
      | cons a as => simp [isPre] at hp
    | cons c rest =>
      rw [replaceAll_cons] at hp
      by_cases hC : WTOK ≠ [] ∧ isPre WTOK (c :: rest) = true
      · rw [if_pos hC] at hp
        cases p with
        | nil => rfl
        | cons q qs =>
          cases i with
          | nil => exact absurd rfl hne
          | cons ihd itl =>
            rw [List.cons_append] at hp
            simp only [isPre, Bool.and_eq_true, beq_iff_eq] at hp
            have hq : q ∈ BCHARS := hsub q (List.mem_cons_self q qs)
            have hihd : ihd ∉ BCHARS := hchars ihd (List.mem_cons_self ihd itl)
            exact absurd (hp.1 ▸ hq) hihd
      · rw [if_neg hC] at hp
        cases p with
        | nil => rfl
        | cons q qs =>
          simp only [isPre, Bool.and_eq_true] at hp ⊢
          refine ⟨hp.1, ?_⟩
          exact ih rest (by simp only [List.length_cons] at hs; omega) qs
            (fun d hd => hsub d (List.mem_cons_of_mem q hd)) hp.2

theorem seq_eq_simul {i : Str} (hne : i ≠ []) (hchars : ∀ c ∈ i, c ∉ BCHARS) :
    ∀ n t, t.length ≤ n →
      replaceAll BTOK i (replaceAll WTOK i t) = fillSimul i t := by
  intro n
  induction n with
  | zero =>
    intro t ht
    have : t = [] := List.eq_nil_of_length_eq_zero (Nat.le_zero.mp ht)
    subst this
    rfl
  | succ n ih =>
    intro t ht
    cases t with
    | nil => rfl
    | cons c rest =>
      have hWlen : WTOK.length = 11 := rfl
      have hBlen : BTOK.length = 9 := rfl
      have ht' : rest.length + 1 ≤ n + 1 := by simpa using ht
      by_cases hW : isPre WTOK (c :: rest) = true
      · rw [replaceAll_cons, if_pos ⟨by decide, hW⟩]
        rw [replaceAll_walk BTOK i _ i
          (fun d hd => by
            have : d ∉ BCHARS := hchars d hd
            intro hcon
            simp only [BTOK, str, List.head?] at hcon
            apply this
            cases hcon
            decide)]
        rw [ih ((c :: rest).drop WTOK.length)
          (by simp only [List.length_drop, List.length_cons, hWlen]; omega)]
        rw [fillSimul_cons, if_pos hW]
      · by_cases hB : isPre BTOK (c :: rest) = true
        · have hsplit : BTOK ++ (c :: rest).drop BTOK.length = c :: rest :=
            isPre_append_of hB
          have h1 : replaceAll WTOK i (c :: rest) =
              BTOK ++ replaceAll WTOK i ((c :: rest).drop BTOK.length) := by
            conv_lhs => rw [← hsplit]
            exact replaceAll_walk WTOK i _ BTOK (by decide)
          rw [h1, replaceAll_head_match i _ (by decide)]
          rw [ih ((c :: rest).drop BTOK.length)
            (by simp only [List.length_drop, List.length_cons, hBlen]; omega)]
          rw [fillSimul_cons, if_neg hW, if_pos hB]
        · have hstep : replaceAll WTOK i (c :: rest) = c :: replaceAll WTOK i rest := by
            rw [replaceAll_cons, if_neg (by rintro ⟨_, hcon⟩; exact hW hcon)]
          rw [hstep, replaceAll_cons]
          rw [if_neg (by
            rintro ⟨_, hcon⟩
            rw [← hstep] at hcon
            have := isPre_reflect hne hchars (c :: rest).length (c :: rest)
              (le_refl _) BTOK (by decide) hcon
            exact hB this)]
          rw [ih rest (by simp only [List.length_cons] at ht; omega)]
          rw [fillSimul_cons, if_neg hW, if_neg hB]

/-! ## Lemmas about identifier splitting -/

theorem contains_cons_false {c : Char} {rest : Str} {x : Char}
    (h : (c :: rest).contains x = false) :
    c ≠ x ∧ rest.contains x = false := by
  rw [List.contains_cons, Bool.or_eq_false_iff] at h
  refine ⟨fun hh => ?_, h.2⟩
  subst hh
  simp at h

theorem splitOnColon_no_colon : ∀ a : Str, a.contains ':' = false → splitOnColon a = [a] := by
  intro a
  induction a with
  | nil => intro _; rfl
  | cons c rest ih =>
    intro h
    obtain ⟨hc, h2⟩ := contains_cons_false h
    simp only [splitOnColon, ih h2]
    rw [if_neg (fun hh => hc hh)]

theorem splitOnColon_append : ∀ a : Str, ∀ b : Str, a.contains ':' = false →
    splitOnColon (a ++ ':' :: b) = a :: splitOnColon b := by
  intro a
  induction a with
  | nil =>
    intro b _
    simp [splitOnColon]
  | cons c rest ih =>
    intro b h
    obtain ⟨hc, h2⟩ := contains_cons_false h
    rw [List.cons_append]
    show (if c = ':' then ([] : Str) :: splitOnColon (rest ++ ':' :: b)
          else match splitOnColon (rest ++ ':' :: b) with
            | g :: gs => (c :: g) :: gs
            | [] => [[c]]) = (c :: rest) :: splitOnColon b
    rw [if_neg hc, ih b h2]

theorem contains_colon_append : ∀ a b : Str, (a ++ ':' :: b).contains ':' = true := by
  intro a b
  induction a with
  | nil => simp [List.contains_cons]
  | cons c rest ih => simp [List.contains_cons, ih]

/-! ## Claim C1 -/

/-- Claim C1: `detect_role_kind` is a deterministic function of the
template with fixed precedence — a template matching the input/output
scaffold pattern classifies as fewshot even when it also contains the
placeholder; a template containing the placeholder (bare or brace-wrapped)
but not the scaffold pattern classifies as embedded; every other template
classifies as system. -/
theorem C1_detect_precedence (t : Str) :
    (scaffoldPat t = true → detect_role_kind t = str "fewshot") ∧
    (scaffoldPat t = false →
      (strContains BTOK t || strContains WTOK t) = true →
      detect_role_kind t = str "embedded") ∧
    (scaffoldPat t = false →
      (strContains BTOK t || strContains WTOK t) = false →
      detect_role_kind t = str "system") := by
  refine ⟨fun h => ?_, fun h1 h2 => ?_, fun h1 h2 => ?_⟩
  · simp [detect_role_kind, h]
  · simp [detect_role_kind, h1, h2]
  · simp [detect_role_kind, h1, h2]

/-- Witness for C1 at a concrete template that matches the scaffold
pattern and also contains the placeholder: it classifies as fewshot. -/
theorem C1_detect_precedence_w :
    scaffoldPat (str "### INPUT:\n\x7b__INPUT__\x7d\n### OUTPUT:") = true ∧
    strContains BTOK (str "### INPUT:\n\x7b__INPUT__\x7d\n### OUTPUT:") = true ∧
    detect_role_kind (str "### INPUT:\n\x7b__INPUT__\x7d\n### OUTPUT:") = str "fewshot" :=
  ⟨by decide, by decide, (C1_detect_precedence _).1 (by decide)⟩

/-! ## Claim C6 -/

/-- Claim C6: the Gemini outbound payload has one `contents` entry per
message whose role is user or system (assistant messages are dropped), and
every call attaches exactly the four fixed safety-setting entries, each
with threshold BLOCK_NONE. -/
theorem C6_gemini_payload (messages : List Msg) (t : ℚ) :
    (gemini_send_payload messages t).contents =
      (messages.filter (fun m => m.role == str "user" || m.role == str "system")).map
        (fun m => [m.content]) ∧
    (gemini_send_payload messages t).safetySettings.length = 4 ∧
    (∀ e ∈ (gemini_send_payload messages t).safetySettings, e.threshold = str "BLOCK_NONE") ∧
    (gemini_send_payload messages t).safetySettings.map SafetySetting.category =
      [str "HARM_CATEGORY_HARASSMENT", str "HARM_CATEGORY_HATE_SPEECH",
       str "HARM_CATEGORY_SEXUALLY_EXPLICIT", str "HARM_CATEGORY_DANGEROUS_CONTENT"] := by
  refine ⟨rfl, rfl, ?_, rfl⟩
  intro e he
  simp only [gemini_send_payload, List.mem_cons, List.not_mem_nil, or_false] at he
  rcases he with rfl | rfl | rfl | rfl <;> rfl

/-- Witness for C6 on a concrete message list containing an assistant
message: the assistant turn is absent from `contents`, and the harassment
entry carries threshold BLOCK_NONE. -/
theorem C6_gemini_payload_w :
    (gemini_send_payload
        [⟨str "user", str "hi"⟩, ⟨str "assistant", str "yo"⟩] 1).contents = [[str "hi"]] ∧
    SafetySetting.threshold ⟨str "HARM_CATEGORY_HARASSMENT", str "BLOCK_NONE"⟩ =
      str "BLOCK_NONE" := by
  constructor
  · rw [(C6_gemini_payload [⟨str "user", str "hi"⟩, ⟨str "assistant", str "yo"⟩] 1).1]
    decide
  · exact (C6_gemini_payload [⟨str "user", str "hi"⟩, ⟨str "assistant", str "yo"⟩] 1).2.2.1
      ⟨str "HARM_CATEGORY_HARASSMENT", str "BLOCK_NONE"⟩ (by decide)

/-! ## Claim C8 -/

/-- Counterexample for C8 as stated: when the input itself contains the
bare placeholder, the two sequential replacement passes of
`fill_embedded` do not realise the simultaneous replacement of every
template occurrence by the input. -/
theorem C8_fill_counterexample :
    fill_embedded WTOK (str "X__INPUT__Y") ≠ fillSimul (str "X__INPUT__Y") WTOK := by
  decide

/-- Claim C8 (amended): a template containing neither spelling of the
placeholder is returned unchanged; and for every non-empty input sharing
no character with the bare placeholder token, `fill_embedded` equals the
simultaneous replacement of every occurrence of either spelling by the
input. -/
theorem C8_fill_amended (t i : Str) :
    (strContains BTOK t = false → fill_embedded t i = t) ∧
    (i ≠ [] → (∀ c ∈ i, c ∉ BCHARS) → fill_embedded t i = fillSimul i t) := by
  constructor
  · intro hB
    have hW : strContains WTOK t = false := by
      cases hcw : strContains WTOK t with
      | true => exact absurd (containsW_containsB t hcw) (by simp [hB])
      | false => rfl
    unfold fill_embedded
    rw [noOccur_replaceAll i hW, noOccur_replaceAll i hB]
  · intro h1 h2
    exact seq_eq_simul h1 h2 t.length t (le_refl _)

/-- Witness for C8 (amended): a placeholder-free template is unchanged,
and a template carrying both spellings is filled like the simultaneous
replacement for a benign input. -/
theorem C8_fill_amended_w :
    fill_embedded (str "no placeholder here") (str "xq") = str "no placeholder here" ∧
    fill_embedded (str "a \x7b__INPUT__\x7db and __INPUT__ c") (str "xq; z") =
      fillSimul (str "xq; z") (str "a \x7b__INPUT__\x7db and __INPUT__ c") :=
  ⟨(C8_fill_amended (str "no placeholder here") (str "xq")).1 (by decide),
   (C8_fill_amended (str "a \x7b__INPUT__\x7db and __INPUT__ c") (str "xq; z")).2
     (by decide) (by decide)⟩

/-! ## Claim C4 -/

/-- Counterexample for C4 as stated: the identifier splitting of
`load_model` does not rejoin the entire remainder after the first colon —
with two colons inside the model part, the last segment is dropped. -/
theorem C4_split_counterexample :
    parse_model_id (str "ollama:a:b:c") = some (str "ollama", str "a:b") ∧
    parse_model_id (str "ollama:a:b:c") ≠ some (str "ollama", str "a:b:c") := by
  constructor
  · decide
  · decide

/-- Claim C4 (amended): `load_model` splits at the first colon for the
provider key, and rebuilds the model name from at most the next two
colon-separated segments; every segment after that is silently dropped. -/
theorem C4_split_amended (p m v : Str) (hp : p ≠ [])
    (hpc : p.contains ':' = false) (hmc : m.contains ':' = false)
    (hvc : v.contains ':' = false) :
    (parse_model_id (p ++ ':' :: m) = if m = [] then none else some (p, m)) ∧
    parse_model_id (p ++ ':' :: (m ++ ':' :: v)) = some (p, m ++ ':' :: v) ∧
    ∀ w : Str, parse_model_id (p ++ ':' :: (m ++ ':' :: (v ++ ':' :: w))) =
      some (p, m ++ ':' :: v) := by
  refine ⟨?_, ?_, fun w => ?_⟩
  · unfold parse_model_id
    rw [if_pos (contains_colon_append p m)]
    rw [splitOnColon_append p m hpc, splitOnColon_no_colon m hmc]
    show (if p = [] ∨ m = [] then none else some (p, m)) = if m = [] then none else some (p, m)
    by_cases hm : m = []
    · rw [if_pos (Or.inr hm), if_pos hm]
    · rw [if_neg (by rintro (h | h); exacts [hp h, hm h]), if_neg hm]
  · unfold parse_model_id
    rw [if_pos (contains_colon_append p (m ++ ':' :: v))]
    rw [splitOnColon_append p (m ++ ':' :: v) hpc,
        splitOnColon_append m v hmc, splitOnColon_no_colon v hvc]
    show (if p = [] ∨ m ++ ':' :: v = [] then none else some (p, m ++ ':' :: v)) =
      some (p, m ++ ':' :: v)
    rw [if_neg (by rintro (h | h); exacts [hp h, by cases m <;> simp at h])]
  · unfold parse_model_id
    rw [if_pos (contains_colon_append p (m ++ ':' :: (v ++ ':' :: w)))]
    rw [splitOnColon_append p (m ++ ':' :: (v ++ ':' :: w)) hpc,
        splitOnColon_append m (v ++ ':' :: w) hmc,
        splitOnColon_append v w hvc]
    show (if p = [] ∨ m ++ ':' :: v = [] then none else some (p, m ++ ':' :: v)) =
      some (p, m ++ ':' :: v)
    rw [if_neg (by rintro (h | h); exacts [hp h, by cases m <;> simp at h])]

/-- Witness for C4 (amended) at the identifiers named by the claim. -/
theorem C4_split_amended_w :
    parse_model_id (str "ollama" ++ ':' :: (str "llama3.2" ++ ':' :: str "latest")) =
      some (str "ollama", str "llama3.2" ++ ':' :: str "latest") ∧
    (str "ollama" ++ ':' :: (str "llama3.2" ++ ':' :: str "latest")) =
      str "ollama:llama3.2:latest" ∧
    (str "llama3.2" ++ ':' :: str "latest" : Str) = str "llama3.2:latest" ∧
    parse_model_id (str "openai" ++ ':' :: str "gpt-4o") =
      (if str "gpt-4o" = ([] : Str) then none else some (str "openai", str "gpt-4o")) :=
  ⟨(C4_split_amended (str "ollama") (str "llama3.2") (str "latest")
      (by decide) (by decide) (by decide) (by decide)).2.1,
   by decide, by decide,
   (C4_split_amended (str "openai") (str "gpt-4o") []
      (by decide) (by decide) (by decide) (by decide)).1⟩

/-! ## Claim C9 -/

/-- Claim C9: `neutralize_history` applies exactly the per-message hybrid
policy, in order — system messages are dropped; a scaffolded user message
is replaced by the trimmed inner text of the full input/output pattern
when it matches and dropped otherwise; every other message passes through
unchanged. -/
theorem C9_neutralize_policy (h : List Msg) :
    neutralize_history h = h.filterMap neutralizeMsgSpec := by
  induction h with
  | nil => rfl
  | cons m rest ih =>
    by_cases h1 : m.role = str "system"
    · simp +decide [neutralize_history, neutralizeMsgSpec, List.filterMap_cons, h1, ih]
    · by_cases h2 : m.role = str "user" ∧ hasScaffoldMark m.content = true
      · cases hE : scaffoldExtract m.content with
        | some g =>
          simp +decide [neutralize_history, neutralizeMsgSpec, List.filterMap_cons, h1, h2, hE, ih]
        | none =>
          simp +decide [neutralize_history, neutralizeMsgSpec, List.filterMap_cons, h1, h2, hE, ih]
      · simp +decide [neutralize_history, neutralizeMsgSpec, List.filterMap_cons, h1, h2, ih]

/-! ## Claim C3 -/

/-- Counterexample for C3 as stated: `neutralize_history` is not
idempotent.  A scaffolded user message whose extracted inner text still
contains a (case-differing) scaffold marker is rewritten by the first pass
and dropped by the second. -/
theorem C3_idempotent_counterexample :
    neutralize_history
        (neutralize_history [⟨str "user", str "### INPUT:\n### input:\n### OUTPUT:"⟩]) ≠
      neutralize_history [⟨str "user", str "### INPUT:\n### input:\n### OUTPUT:"⟩] := by
  decide

theorem neutralize_fixpoint (l : List Msg)
    (H : ∀ m ∈ l, ¬ m.role = str "system" ∧
        (m.role = str "user" → hasScaffoldMark m.content = false)) :
    neutralize_history l = l := by
  induction l with
  | nil => rfl
  | cons m rest ih =>
    obtain ⟨h1, h2⟩ := H m (List.mem_cons_self m rest)
    have hrest := ih (fun x hx => H x (List.mem_cons_of_mem m hx))
    by_cases hu : m.role = str "user"
    · simp +decide [neutralize_history, h1, hu, h2 hu, hrest]
    · simp +decide [neutralize_history, h1, hu, hrest]

theorem neutralize_output_clean (h : List Msg)
    (H : ∀ m ∈ h, m.role = str "user" → hasScaffoldMark m.content = true →
        Option.all (fun g => !(hasScaffoldMark (pyStrip g))) (scaffoldExtract m.content) = true) :
    ∀ m ∈ neutralize_history h, ¬ m.role = str "system" ∧
      (m.role = str "user" → hasScaffoldMark m.content = false) := by
  induction h with
  | nil => intro m hm; simp [neutralize_history] at hm
  | cons a rest ih =>
    have Hrest := fun x hx => H x (List.mem_cons_of_mem a hx)
    intro m hm
    by_cases h1 : a.role = str "system"
    · rw [show neutralize_history (a :: rest) = neutralize_history rest by
        simp [neutralize_history, h1]] at hm
      exact ih Hrest m hm
    · by_cases h2 : a.role = str "user" ∧ hasScaffoldMark a.content = true
      · cases hE : scaffoldExtract a.content with
        | some g =>
          rw [show neutralize_history (a :: rest) =
              ⟨str "user", pyStrip g⟩ :: neutralize_history rest by
            simp +decide [neutralize_history, h1, h2, hE]] at hm
          rcases List.mem_cons.mp hm with rfl | hm'
          · refine ⟨(by decide : ¬ str "user" = str "system"), fun _ => ?_⟩
            have := H a (List.mem_cons_self a rest) h2.1 h2.2
            rw [hE] at this
            simpa using this
          · exact ih Hrest m hm'
        | none =>
          rw [show neutralize_history (a :: rest) = neutralize_history rest by
            simp +decide [neutralize_history, h1, h2, hE]] at hm
          exact ih Hrest m hm
      · rw [show neutralize_history (a :: rest) = a :: neutralize_history rest by
          simp +decide [neutralize_history, h1, h2]] at hm
        rcases List.mem_cons.mp hm with rfl | hm'
        · refine ⟨h1, fun hu => ?_⟩
          cases hmark : hasScaffoldMark m.content with
          | true => exact absurd ⟨hu, hmark⟩ h2
          | false => rfl
        · exact ih Hrest m hm'

/-- Claim C3 (amended): `neutralize_history` is idempotent on every
history in which the extracted, trimmed inner text of each scaffolded user
message is itself free of scaffold markers; in general a second
application can drop or rewrite a message produced by the first. -/
theorem C3_idempotent_amended (h : List Msg)
    (H : ∀ m ∈ h, m.role = str "user" → hasScaffoldMark m.content = true →
        Option.all (fun g => !(hasScaffoldMark (pyStrip g))) (scaffoldExtract m.content) = true) :
    neutralize_history (neutralize_history h) = neutralize_history h :=
  neutralize_fixpoint (neutralize_history h) (neutralize_output_clean h H)

/-- Witness for C3 (amended) on a history holding a system turn, a benign
scaffolded user turn, an assistant turn mentioning a marker and a plain
user turn. -/
theorem C3_idempotent_amended_w :
    neutralize_history (neutralize_history exHistory) = neutralize_history exHistory :=
  C3_idempotent_amended exHistory (by decide)

/-! ## Claim C5 -/

theorem neutralize_no_system :
    ∀ h : List Msg, ∀ m ∈ neutralize_history h, ¬ m.role = str "system" := by
  intro h
  induction h with
  | nil => intro m hm; simp [neutralize_history] at hm
  | cons a rest ih =>
    intro m hm
    by_cases h1 : a.role = str "system"
    · rw [show neutralize_history (a :: rest) = neutralize_history rest by
        simp [neutralize_history, h1]] at hm
      exact ih m hm
    · by_cases h2 : a.role = str "user" ∧ hasScaffoldMark a.content = true
      · cases hE : scaffoldExtract a.content with
        | some g =>
          rw [show neutralize_history (a :: rest) =
              ⟨str "user", pyStrip g⟩ :: neutralize_history rest by
            simp +decide [neutralize_history, h1, h2, hE]] at hm
          rcases List.mem_cons.mp hm with rfl | hm'
          · exact (by decide : ¬ str "user" = str "system")
          · exact ih m hm'
        | none =>
          rw [show neutralize_history (a :: rest) = neutralize_history rest by
            simp +decide [neutralize_history, h1, h2, hE]] at hm
          exact ih m hm
      · rw [show neutralize_history (a :: rest) = a :: neutralize_history rest by
          simp +decide [neutralize_history, h1, h2]] at hm
        rcases List.mem_cons.mp hm with rfl | hm'
        · exact h1
        · exact ih m hm'

/-- Claim C5: with no role, the built message list ends with the single
raw user turn and contains no system message — the stored history is
neutralized before the user turn is appended. -/
theorem C5_build_no_role (history : List Msg) (input : Str) :
    build_messages_for_role history input none =
      neutralize_history history ++ [⟨str "user", input⟩] ∧
    (build_messages_for_role history input none).getLast? = some ⟨str "user", input⟩ ∧
    ∀ m ∈ build_messages_for_role history input none, ¬ m.role = str "system" := by
  have hbuild : build_messages_for_role history input none =
      neutralize_history history ++ [⟨str "user", input⟩] := rfl
  refine ⟨hbuild, ?_, ?_⟩
  · rw [hbuild]; exact List.getLast?_concat _
  · intro m hm
    rw [hbuild] at hm
    rcases List.mem_append.mp hm with h | h
    · exact neutralize_no_system history m h
    · rcases List.mem_singleton.mp h with rfl
      exact (by decide : ¬ str "user" = str "system")

/-- Witness for C5 on a concrete history containing a system turn and a
scaffolded user turn. -/
theorem C5_build_no_role_w :
    ((build_messages_for_role exHistory (str "hi") none).getLast? =
        some ⟨str "user", str "hi"⟩ ∧
      ∀ m ∈ build_messages_for_role exHistory (str "hi") none, ¬ m.role = str "system") ∧
    build_messages_for_role exHistory (str "hi") none =
      [⟨str "user", str "hello"⟩, ⟨str "assistant", str "a ### OUTPUT: ok"⟩,
       ⟨str "user", str "plain"⟩, ⟨str "user", str "hi"⟩] :=
  ⟨⟨(C5_build_no_role exHistory (str "hi")).2.1, (C5_build_no_role exHistory (str "hi")).2.2⟩,
   by decide⟩

/-! ## Lemmas about sending -/

theorem send_with_role_error_state (provider : ProviderFun) (st : ClientState)
    (input : Str) (t p : Option ℚ) (e : Str)
    (h : (send_with_role provider st input t p).2 = Except.error e) :
    (send_with_role provider st input t p).1 = st := by
  unfold send_with_role at h ⊢
  cases hc : st.current_client with
  | none => simp only [hc]
  | some k =>
    simp only [hc] at h ⊢
    cases hp : provider (build_messages_for_role st.history input st.active_role)
        (eff_temperature st.active_role t) with
    | error e' => simp only [hp]
    | ok r => simp [hp] at h

theorem send_with_role_ok_state (provider : ProviderFun) (st : ClientState)
    (input : Str) (t p : Option ℚ) (resp : Str)
    (h : (send_with_role provider st input t p).2 = Except.ok resp) :
    (send_with_role provider st input t p).1 =
      { st with history :=
          st.history ++ [⟨str "user", input⟩, ⟨str "assistant", resp⟩] } := by
  unfold send_with_role at h ⊢
  cases hc : st.current_client with
  | none => simp [hc] at h
  | some k =>
    simp only [hc] at h ⊢
    cases hp : provider (build_messages_for_role st.history input st.active_role)
        (eff_temperature st.active_role t) with
    | error e' => simp [hp] at h
    | ok r =>
      simp only [hp] at h ⊢
      obtain rfl : r = resp := by simpa using h
      rfl

/-! ## Claim C2 -/

/-- Claim C2: a `send_with_role` call whose provider call fails leaves the
stored history exactly unchanged; a successful call appends exactly the
user turn followed by the assistant turn, increasing the stored history
length by exactly two. -/
theorem C2_send_history_atomic (provider : ProviderFun) (st : ClientState)
    (input : Str) (t p : Option ℚ) :
    (∀ e, (send_with_role provider st input t p).2 = Except.error e →
      (send_with_role provider st input t p).1.history = st.history) ∧
    (∀ resp, (send_with_role provider st input t p).2 = Except.ok resp →
      (send_with_role provider st input t p).1.history =
        st.history ++ [⟨str "user", input⟩, ⟨str "assistant", resp⟩] ∧
      (send_with_role provider st input t p).1.history.length =
        st.history.length + 2) := by
  constructor
  · intro e he
    rw [send_with_role_error_state provider st input t p e he]
  · intro resp hr
    rw [send_with_role_ok_state provider st input t p resp hr]
    exact ⟨rfl, by simp⟩

/-- Witness for C2: a failing provider leaves the sample history
untouched; a succeeding one appends the user and assistant turns. -/
theorem C2_send_history_atomic_w :
    (send_with_role exProviderErr exSt (str "hi") none none).1.history = exSt.history ∧
    (send_with_role exProviderOk exSt (str "hi") none none).1.history =
      exSt.history ++ [⟨str "user", str "hi"⟩, ⟨str "assistant", str "yo"⟩] :=
  ⟨(C2_send_history_atomic exProviderErr exSt (str "hi") none none).1 (str "boom") rfl,
   ((C2_send_history_atomic exProviderOk exSt (str "hi") none none).2 (str "yo") rfl).1⟩

/-! ## Claim C10 -/

/-- Claim C10: after a successful `send_with_role` under an active role of
embedded or fewshot kind, the user turn appended to the stored history
carries the raw user input, while the user turn actually sent to the
provider carries the placeholder-filled template. -/
theorem C10_stored_raw_user (provider : ProviderFun) (st : ClientState)
    (input : Str) (t p : Option ℚ) (r : RoleConfig) (resp : Str)
    (_hrole : st.active_role = some r)
    (hkind : resolvedKind r = str "embedded" ∨ resolvedKind r = str "fewshot")
    (hok : (send_with_role provider st input t p).2 = Except.ok resp) :
    (send_with_role provider st input t p).1.history =
      st.history ++ [⟨str "user", input⟩, ⟨str "assistant", resp⟩] ∧
    (build_messages_for_role st.history input (some r)).getLast? =
      some ⟨str "user", fill_embedded r.template input⟩ := by
  constructor
  · rw [send_with_role_ok_state provider st input t p resp hok]
  · have hns : ¬ resolvedKind r = str "system" := by
      rcases hkind with h | h <;> rw [h] <;> decide
    rw [show build_messages_for_role st.history input (some r) =
        neutralize_history st.history ++
          [⟨str "user", fill_embedded r.template input⟩] by
      simp [build_messages_for_role, hns]]
    exact List.getLast?_concat _

/-- Witness for C10 with the embedded sample role. -/
theorem C10_stored_raw_user_w :
    (send_with_role exProviderOk exStRole (str "print 1") none none).1.history =
      exStRole.history ++ [⟨str "user", str "print 1"⟩, ⟨str "assistant", str "yo"⟩] ∧
    (build_messages_for_role exStRole.history (str "print 1") (some exRoleEmb)).getLast? =
      some ⟨str "user", fill_embedded exRoleEmb.template (str "print 1")⟩ :=
  C10_stored_raw_user exProviderOk exStRole (str "print 1") none none exRoleEmb (str "yo")
    rfl (Or.inl (by decide)) rfl

/-! ## Claim C7 -/

theorem load_model_preserves (env : Env) (st : ClientState) (m? : Option Str) :
    (load_model env st m?).1.active_role = st.active_role ∧
    (load_model env st m?).1.history = st.history ∧
    ((load_model env st m?).2 = none ∨
      ((load_model env st m?).1.current_model = st.current_model ∧
       (load_model env st m?).1.current_client = st.current_client)) := by
  unfold load_model
  split
  · exact ⟨rfl, rfl, Or.inr ⟨rfl, rfl⟩⟩
  · split
    · exact ⟨rfl, rfl, Or.inr ⟨rfl, rfl⟩⟩
    · split
      · exact ⟨rfl, rfl, Or.inr ⟨rfl, rfl⟩⟩
      · split
        · exact ⟨rfl, rfl, Or.inr ⟨rfl, rfl⟩⟩
        · split
          · split
            · exact ⟨rfl, rfl, Or.inl rfl⟩
            · exact ⟨rfl, rfl, Or.inr ⟨rfl, rfl⟩⟩
          · exact ⟨rfl, rfl, Or.inr ⟨rfl, rfl⟩⟩

theorem set_role_effects (env : Env) (st : ClientState) (role : RoleConfig) :
    (set_role env st role).1.active_role =
      some { role with kind := some (resolvedKind role) } ∧
    (set_role env st role).1.history = st.history ∧
    ((set_role env st role).2 = none ∨
      ((set_role env st role).1.current_model = st.current_model ∧
       (set_role env st role).1.current_client = st.current_client)) := by
  unfold set_role
  dsimp only
  split
  · split
    · exact load_model_preserves env _ _
    · exact ⟨rfl, rfl, Or.inl rfl⟩
  · exact ⟨rfl, rfl, Or.inl rfl⟩

/-- Counterexample for C7 as stated: a `set_role` call that fails to
resolve the role's model still reports an error, yet the active role has
changed — the failed switch is not a no-op on `active_role`. -/
theorem C7_failed_switch_counterexample :
    (set_role exEnv exSt exRoleBad).2.isSome = true ∧
    (set_role exEnv exSt exRoleBad).1.active_role ≠ exSt.active_role := by
  constructor
  · decide
  · decide

/-- Claim C7 (amended): a failed `load_model` leaves `current_model`,
`current_client`, `active_role` and the history unchanged; a failed
`set_role` leaves `current_model` and `current_client` unchanged but has
already installed the new role (with its kind resolved) as the active
role before the failure. -/
theorem C7_failed_switch_amended :
    (∀ (env : Env) (st : ClientState) (m? : Option Str) (e : Str),
      (load_model env st m?).2 = some e →
        (load_model env st m?).1.current_model = st.current_model ∧
        (load_model env st m?).1.current_client = st.current_client ∧
        (load_model env st m?).1.active_role = st.active_role ∧
        (load_model env st m?).1.history = st.history) ∧
    (∀ (env : Env) (st : ClientState) (role : RoleConfig) (e : Str),
      (set_role env st role).2 = some e →
        (set_role env st role).1.current_model = st.current_model ∧
        (set_role env st role).1.current_client = st.current_client ∧
        (set_role env st role).1.active_role =
          some { role with kind := some (resolvedKind role) }) := by
  constructor
  · intro env st m? e he
    obtain ⟨h1, h2, h3⟩ := load_model_preserves env st m?
    rcases h3 with h3 | ⟨hcm, hcc⟩
    · rw [h3] at he; cases he
    · exact ⟨hcm, hcc, h1, h2⟩
  · intro env st role e he
    obtain ⟨h1, h2, h3⟩ := set_role_effects env st role
    rcases h3 with h3 | ⟨hcm, hcc⟩
    · rw [h3] at he; cases he
    · exact ⟨hcm, hcc, h1⟩

/-- Witness for C7 (amended): concrete failing switches on the sample
state. -/
theorem C7_failed_switch_amended_w :
    ((load_model exEnv exSt (some (str "nope:x"))).1.current_model = exSt.current_model ∧
      (load_model exEnv exSt (some (str "nope:x"))).1.active_role = exSt.active_role) ∧
    (set_role exEnv exSt exRoleBad).1.current_model = exSt.current_model ∧
    (set_role exEnv exSt exRoleBad).1.active_role =
      some { exRoleBad with kind := some (resolvedKind exRoleBad) } :=
  ⟨⟨(C7_failed_switch_amended.1 exEnv exSt (some (str "nope:x"))
        (str "Provider not found in config file") rfl).1,
    (C7_failed_switch_amended.1 exEnv exSt (some (str "nope:x"))
        (str "Provider not found in config file") rfl).2.2.1⟩,
   (C7_failed_switch_amended.2 exEnv exSt exRoleBad
        (str "Provider not found in config file") rfl).1,
   (C7_failed_switch_amended.2 exEnv exSt exRoleBad
        (str "Provider not found in config file") rfl).2.2⟩
